import Mathlib

/-!
Verification development for the `todo-expander` processing pipeline.

The TypeScript core (src/todos.ts, src/rewrite.ts, src/cache.ts,
src/prompt.ts, src/process.ts) is shallowly embedded below.  JavaScript
strings are modelled as `List Char` (`Str`); the embedding keeps the
source's control flow and names.  External effects (filesystem, network,
wall clock) are modelled as explicit parameters: the completion service is
a deterministic function from the prompt to an optional reply, the
per-file deadline check `Date.now() - fileStart > perFileTimeoutMs` is an
oracle indexed by loop iteration, and the on-disk cache is an explicit
map.  Characters are Unicode scalars; JS `charCodeAt` (UTF-16 units)
agrees with `Char.toNat` on all code points below 0x10000, which covers
every string the claims touch.
-/

/-- JavaScript strings, modelled as lists of characters. -/
abbrev Str := List Char

/-- Coerce a Lean string literal to the model type. -/
def str (s : String) : Str := s.data

/-- The character class of the JS regex `\s` and of `String.trim`,
restricted to the code points that can appear in this development
(ASCII whitespace plus NBSP, BOM and the two Unicode line separators). -/
def isJsSpace (c : Char) : Bool :=
  c = ' ' || c = '\t' || c = '\n' || c = '\r' || c = '\x0b' || c = '\x0c' ||
  c = '\u00A0' || c = '\uFEFF' || c = '\u2028' || c = '\u2029'

/-- JS `String.prototype.trim` (both ends). -/
def jsTrim (s : Str) : Str :=
  ((s.dropWhile isJsSpace).reverse.dropWhile isJsSpace).reverse

/-- JS `content.split('\n')`.  Always returns at least one piece. -/
def splitLines : Str → List Str
  | [] => [[]]
  | c :: rest =>
    if c = '\n' then [] :: splitLines rest
    else
      match splitLines rest with
      | [] => [[c]]
      | h :: t => (c :: h) :: t

/-- JS `lines.join('\n')`. -/
def joinLines : List Str → Str
  | [] => []
  | [x] => x
  | x :: xs => x ++ '\n' :: joinLines xs

/-- Does `needle` occur as a contiguous substring?  (JS `RegExp.test` for a
literal pattern, and `String.includes`.) -/
def containsSub (needle : Str) : Str → Bool
  | [] => needle.isEmpty
  | c :: rest => needle.isPrefixOf (c :: rest) || containsSub needle rest

/-- Word characters of the JS regex `\w` / word-boundary `\b`. -/
def isWordChar (c : Char) : Bool :=
  ('a' ≤ c && c ≤ 'z') || ('A' ≤ c && c ≤ 'Z') || ('0' ≤ c && c ≤ '9') || c = '_'

/-- `none` (start of string) or a non-word character: a `\b` boundary
next to a word character. -/
def boundaryOk : Option Char → Bool
  | none => true
  | some c => !isWordChar c

/-- Helper scan for `containsWord`: `prev` is the character before the
current position. -/
def containsWordGo (w : Str) (prev : Option Char) : Str → Bool
  | [] => false
  | c :: rest =>
    (boundaryOk prev && w.isPrefixOf (c :: rest) &&
      boundaryOk ((c :: rest).drop w.length).head?) ||
    containsWordGo w (some c) rest

/-- JS regex `\bw\b` for a word `w` made of word characters. -/
def containsWord (w : Str) (text : Str) : Bool :=
  containsWordGo w none text

/-- Case-insensitive character comparison (the regex `/i` flag; ASCII). -/
def ciEq (c d : Char) : Bool := c.toLower = d.toLower

/-- `:` or whitespace — the `[:\s]` class closing the TODO token. -/
def todoDelim (c : Char) : Bool := c = ':' || isJsSpace c

/-- The suffix `\s*TODO[:\s]` of both detection regexes (`/i`): skip
whitespace, then the token `TODO` case-insensitively, then `:` or
whitespace. -/
def todoAfter (s : Str) : Bool :=
  match s.dropWhile isJsSpace with
  | c1 :: c2 :: c3 :: c4 :: c5 :: _ =>
    ciEq c1 'T' && ciEq c2 'O' && ciEq c3 'D' && ciEq c4 'O' && todoDelim c5
  | _ => false

/-- Scan for the first match of `(^|\s)(\/\/|#)\s*TODO[:\s]` in a line and
return the captured marker (`"//"` or `"#"`).  `prev` is the character
before the scan position, `none` at the start of the line; positions are
tried left to right exactly as the backtracking regex engine does. -/
def singleMarkerGo (prev : Option Char) : Str → Option Str
  | [] => none
  | c :: rest =>
    let pre : Bool := match prev with
      | none => true
      | some p => isJsSpace p
    if pre && c = '/' && rest.head? = some '/' && todoAfter rest.tail then
      some (str "//")
    else if pre && c = '#' && todoAfter rest then
      some (str "#")
    else
      singleMarkerGo (some c) rest

/-- `TODO_SINGLE = /(^|\s)(\/\/|#)\s*TODO[:\s](.*)$/i`: the marker of the
first match, or `none` when the line does not match.  (The source computes
`m[2] === '#' ? '#' : '//'`.) -/
def singleMarker (l : Str) : Option Str := singleMarkerGo none l

/-- `TODO_BLOCK_START = /\/\*\s*TODO[:\s]/i` as a test on one line. -/
def blockStartTest : Str → Bool
  | [] => false
  | c :: rest =>
    (c = '/' && rest.head? = some '*' && todoAfter rest.tail) ||
    blockStartTest rest

/-- Comment style of a detected TODO. -/
inductive Style where
  | line
  | block
deriving DecidableEq, Repr

/-- A detected TODO comment occurrence (`TodoMatch` in src/todos.ts). -/
structure TodoMatch where
  start : Nat
  «end» : Nat
  raw : Str
  style : Style
  marker : Str
deriving DecidableEq, Repr

/-- The structured-brief filter from `detectTodos`:
`/AI TASK:|\bContext\b|\bGoal\b|\bSteps\b|\bConstraints\b|\bAcceptance\b/`. -/
def isStructured (text : Str) : Bool :=
  containsSub (str "AI TASK:") text ||
  containsWord (str "Context") text ||
  containsWord (str "Goal") text ||
  containsWord (str "Steps") text ||
  containsWord (str "Constraints") text ||
  containsWord (str "Acceptance") text

/-- The single-line scan of `detectTodos` (`lines.forEach` over
`TODO_SINGLE`), with `i` the index of the first line of the suffix. -/
def findSinglesAux : List Str → Nat → List TodoMatch
  | [], _ => []
  | ln :: rest, i =>
    match singleMarker ln with
    | some mk => ⟨i, i, ln, .line, mk⟩ :: findSinglesAux rest (i + 1)
    | none => findSinglesAux rest (i + 1)

/-- Structural worker for `blockEndFrom`; `fuel ≥ lines.length - i` at
every call, so the fuel never runs out before the scan completes. -/
def blockEndGo (lines : List Str) : Nat → Nat → Nat
  | 0, i => i
  | fuel + 1, i =>
    if h : i < lines.length then
      if containsSub (str "*/") (lines.get ⟨i, h⟩) then i
      else blockEndGo lines fuel (i + 1)
    else i

/-- The inner `while` of the block scan: first index `j ≥ i` whose line
contains `*/` (regex `/\*\//`), or `lines.length` if none. -/
def blockEndFrom (lines : List Str) (i : Nat) : Nat :=
  blockEndGo lines (lines.length - i) i

theorem blockEndGo_ge (lines : List Str) (fuel i : Nat) : i ≤ blockEndGo lines fuel i := by
  induction fuel generalizing i with
  | zero => simp [blockEndGo]
  | succ fuel ih =>
    simp only [blockEndGo]
    split
    · split
      · exact Nat.le_refl i
      · exact Nat.le_trans (Nat.le_succ i) (ih (i + 1))
    · exact Nat.le_refl i

theorem blockEndFrom_ge (lines : List Str) (i : Nat) : i ≤ blockEndFrom lines i :=
  blockEndGo_ge lines (lines.length - i) i

/-- Structural worker for the block scan; `fuel ≥ lines.length - i` at
every call (the jump to `e + 1` only ever skips forward). -/
def findBlocksGo (lines : List Str) : Nat → Nat → List TodoMatch
  | 0, _ => []
  | fuel + 1, i =>
    if h : i < lines.length then
      if blockStartTest (lines.get ⟨i, h⟩) then
        let e := blockEndFrom lines i
        let e2 := min e (lines.length - 1)
        let raw := joinLines ((lines.drop i).take (e2 + 1 - i))
        ⟨i, e2, raw, .block, str "/*"⟩ :: findBlocksGo lines fuel (e + 1)
      else findBlocksGo lines fuel (i + 1)
    else []

/-- The block-comment scan of `detectTodos` (the indexed `for` loop with
the inner `while`). -/
def findBlocksAux (lines : List Str) (i : Nat) : List TodoMatch :=
  findBlocksGo lines (lines.length - i) i

/-- `detectTodos` from src/todos.ts.  (The source returns `{ todos }`;
the field is returned directly.) -/
def detectTodos (content : Str) : List TodoMatch :=
  let lines := splitLines content
  let singles := findSinglesAux lines 0
  let blocks := findBlocksAux lines 0
  (singles ++ blocks).filter (fun t => !isStructured t.raw)

/-! ## Rewrite engine (src/rewrite.ts) -/

/-- The style-normalization step of `applyRewrites`: prefix every line
with the original marker (line style, unless the trimmed line already
starts with it), or wrap in `/* ... */` (block style, unless the trimmed
text already starts with `/*`). -/
def normalizeComment (todo : TodoMatch) (newComment : Str) : Str :=
  match todo.style with
  | .line =>
    joinLines ((splitLines newComment).map
      (fun l => if todo.marker.isPrefixOf (jsTrim l) then l
                else todo.marker ++ ' ' :: l))
  | .block =>
    let trimmed := jsTrim newComment
    if (str "/*").isPrefixOf trimmed then newComment
    else str "/*" ++ '\n' :: trimmed ++ '\n' :: str "*/"

/-- `applyRewrites` from src/rewrite.ts: splice the normalized comment
over lines `[todo.start, todo.end]` of `content`. -/
def applyRewrites (content : Str) (todo : TodoMatch) (newComment : Str) : Str :=
  let lines := splitLines content
  let normalized := normalizeComment todo newComment
  let before := lines.take todo.start
  let after := lines.drop (todo.«end» + 1)
  let replacement := splitLines normalized
  joinLines (before ++ replacement ++ after)

/-! ## Cache keys and the in-memory cache (src/process.ts, src/cache.ts) -/

/-- FNV-1a 32-bit hash (`fnv1aHex` in src/process.ts); the shifted sums
`h + (h<<1) + (h<<4) + (h<<7) + (h<<8) + (h<<24)` amount to multiplication
by the FNV prime 16777619 modulo 2^32. -/
def fnv1aLoop (h : Nat) : Str → Nat
  | [] => h
  | c :: rest =>
    let h1 := Nat.xor h c.toNat
    fnv1aLoop ((h1 * 16777619) % 4294967296) rest

/-- One lowercase hex digit. -/
def hexDigit (n : Nat) : Char :=
  if n < 10 then Char.ofNat (48 + n) else Char.ofNat (87 + n)

/-- Exactly `k` lowercase hex digits of `n`, most significant first.
For 32-bit `n` and `k = 8` this equals the source's
`h.toString(16).padStart(8, '0')`. -/
def hexFixed : Nat → Nat → Str
  | 0, _ => []
  | k + 1, n => hexFixed k (n / 16) ++ [hexDigit (n % 16)]

/-- `fnv1aHex` from src/process.ts. -/
def fnv1aHex (s : Str) : Str := hexFixed 8 (fnv1aLoop 2166136261 s)

/-- File-scoped cache key: `"f:" + fnv1aHex(path + "::" + raw)`. -/
def cacheKey (path raw : Str) : Str := str "f:" ++ fnv1aHex (path ++ str "::" ++ raw)

/-- Global cache key: `"t:" + fnv1aHex(raw)`. -/
def todoKey (raw : Str) : Str := str "t:" ++ fnv1aHex raw

/-- The in-memory cache: a JS plain object used as a string map, modelled
as an association list in property-insertion order. -/
abbrev Cache := List (Str × Str)

/-- Property read `cache[k]` (`none` = `undefined`). -/
def Cache.lookup (c : Cache) (k : Str) : Option Str :=
  match c.find? (fun p => p.1 = k) with
  | some p => some p.2
  | none => none

/-- Property write `cache[k] = v`: overwrite in place, or append. -/
def Cache.set (c : Cache) (k : Str) (v : Str) : Cache :=
  match c with
  | [] => [(k, v)]
  | (k0, v0) :: rest =>
    if k0 = k then (k0, v) :: rest else (k0, v0) :: Cache.set rest k v

/-- JS `a ?? b` on possibly-undefined strings. -/
def jsqq : Option Str → Option Str → Option Str
  | none, b => b
  | some v, _ => some v

/-- JS truthiness of a possibly-undefined string (`undefined` and `""`
are falsy). -/
def truthy : Option Str → Bool
  | none => false
  | some v => !v.isEmpty

/-! ## Prompt construction (src/prompt.ts) -/

/-- Decimal digits worker; `fuel ≥ n` suffices. -/
def natToStrGo : Nat → Nat → Str
  | 0, n => [Char.ofNat (48 + n % 10)]
  | fuel + 1, n =>
    if n < 10 then [Char.ofNat (48 + n)]
    else natToStrGo fuel (n / 10) ++ [Char.ofNat (48 + n % 10)]

/-- Decimal rendering of a natural number (JS template interpolation). -/
def natToStr (n : Nat) : Str := natToStrGo n n

/-- ASCII `String.prototype.toLowerCase`. -/
def lowerStr (s : Str) : Str := s.map Char.toLower

/-- `sections.join(', ')`. -/
def joinCommaSp : List Str → Str
  | [] => []
  | [x] => x
  | x :: xs => x ++ str ", " ++ joinCommaSp xs

/-- The default section list compared against in src/prompt.ts. -/
def defaultSections : List Str :=
  [str "Context", str "Goal", str "Steps", str "Constraints", str "Acceptance"]

/-- `isDefaultSections` from `renderPromptBatch`: same length and each
entry equal to the default after trim + lowercase. -/
def isDefaultSections (sections : List Str) : Bool :=
  sections.length = defaultSections.length &&
  (sections.zip defaultSections).all
    (fun p => lowerStr (jsTrim p.1) = lowerStr p.2)

/-- The per-TODO blocks of the batched prompt (the `todos.forEach`),
with `---` pushed between consecutive entries. -/
def promptTodoParts (idx : Nat) : List (Str × Str) → List Str
  | [] => []
  | [(todoComment, codeContext)] =>
    [str "TODO " ++ natToStr (idx + 1) ++ str ":", todoComment, [],
     str "Nearby code (context only):", codeContext]
  | (todoComment, codeContext) :: rest =>
    [str "TODO " ++ natToStr (idx + 1) ++ str ":", todoComment, [],
     str "Nearby code (context only):", codeContext, str "---"] ++
    promptTodoParts (idx + 1) rest

/-- `renderPromptBatch` from src/prompt.ts.  The `loadTemplate()` disk
read is modelled by the `tpl` parameter (`none` = no external template,
so the inline fallback instruction is used). -/
def renderPromptBatch (tpl : Option Str) (filePath language : Str)
    (todos : List (Str × Str)) (style : Str) (sections : List Str) : Str :=
  let parts : List Str :=
    (match tpl with
     | some t => [t]
     | none => [str "Task: Rewrite the TODO into a structured brief as a comment. Return only the rewritten comment."]) ++
    [str "File: " ++ filePath] ++
    (if language.isEmpty then [] else [str "Language: " ++ language]) ++
    (if style = str "succinct" then [] else [str "Style: " ++ style]) ++
    (if isDefaultSections sections then []
     else [str "Sections override: " ++ joinCommaSp sections]) ++
    [str "Return rewritten TODOs separated by --- on their own line in the same order."] ++
    promptTodoParts 0 todos
  joinLines parts

/-- `langFromPath`: lowercased last `.`-separated component. -/
def lastDotPart : Str → Str
  | [] => []
  | c :: rest =>
    if c = '.' then lastDotPart rest
    else match lastDotPart rest with
      | r => if rest.contains '.' then r else c :: r

/-! ## Completion client retry loop (`runLLM` in src/prompt.ts) -/

/-- Outcome of one `attemptOnce()` (one `fetch` bounded by the per-attempt
timeout): a successful response's extracted text (`""` when the JSON had
no parseable text, matching the `|| null` collapse), an HTTP error
status, or a thrown transport error (with its `AbortError` flag). -/
inductive AttemptOutcome where
  | ok (text : Str)
  | httpError (status : Nat)
  | transportError (isAbort : Bool)
deriving DecidableEq, Repr

/-- The retry classification of `runLLM`: timed out (abort), or status
408, 429 or 5xx. -/
def isRetriable : AttemptOutcome → Bool
  | .ok _ => false
  | .httpError s => s = 408 || s = 429 || (500 ≤ s && s ≤ 599)
  | .transportError isAbort => isAbort

/-- The attempt loop of `runLLM`.  `transport n` is the outcome of the
`n`-th attempt (1-based); `remaining` counts the retries still available
(`totalAttempts - attempt`, so the source's `attempt < totalAttempts`
test is `remaining > 0`).  Returns the final value together with the
number of attempts actually made. -/
def runLLMGo (transport : Nat → AttemptOutcome) : Nat → Nat → Option Str × Nat
  | attempt, 0 =>
    match transport attempt with
    | .ok text => if text.isEmpty then (none, attempt) else (some (jsTrim text), attempt)
    | _ => (none, attempt)
  | attempt, r + 1 =>
    match transport attempt with
    | .ok text => if text.isEmpty then (none, attempt) else (some (jsTrim text), attempt)
    | outcome =>
      if isRetriable outcome then runLLMGo transport (attempt + 1) r
      else (none, attempt)

/-- `runLLM` from src/prompt.ts, instrumented with the attempt count.
Total attempts available: `1 + retries`; the backoff sleep between
retriable attempts affects timing only and is not modelled. -/
def runLLM (transport : Nat → AttemptOutcome) (retries : Nat) : Option Str × Nat :=
  runLLMGo transport 1 retries

/-- `langFromPath` from src/process.ts:
`p.split('.').pop()?.toLowerCase() || ''`. -/
def langFromPath (p : Str) : Str := lowerStr (lastDotPart p)

/-! ## Per-file orchestration (src/process.ts) -/

/-- Index of the first occurrence of `needle` in `s`, if any. -/
def findSub (needle : Str) : Str → Option Nat
  | [] => if needle.isEmpty then some 0 else none
  | c :: rest =>
    if needle.isPrefixOf (c :: rest) then some 0
    else match findSub needle (c :: rest).tail with
      | some i => some (i + 1)
      | none => none

/-- Structural worker for `splitOnSep`; each recursive call drops at
least one character, so `fuel = s.length + 1` never runs out. -/
def splitOnSepGo (sep : Str) : Nat → Str → List Str
  | 0, s => [s]
  | fuel + 1, s =>
    if sep.isEmpty then [s]
    else
      match findSub sep s with
      | none => [s]
      | some i => s.take i :: splitOnSepGo sep fuel (s.drop (i + sep.length))

/-- JS `s.split(sep)` for a non-empty string separator: split at each
leftmost non-overlapping occurrence. -/
def splitOnSep (s sep : Str) : List Str := splitOnSepGo sep (s.length + 1) s

/-- The configuration fields consumed by the processing pipeline
(`Cfg` in src/config.ts, core subset). -/
structure Cfg where
  cache : Bool
  contextLines : Nat
  style : Str
  sections : List Str
  perFileTimeoutMs : Option Nat
deriving Repr

/-- External collaborators of `processFile`, made explicit: the loaded
prompt template (disk), the completion service as a deterministic
function of the prompt (network, `runLLM` with fixed key/config), and
the per-file deadline check `Date.now() - fileStart > perFileTimeoutMs`
as an oracle of the iteration index (wall clock). -/
structure Env where
  tpl : Option Str
  llm : Str → Option Str
  timedOut : Nat → Bool

/-- `extractContext` from src/process.ts. -/
def extractContext (content : Str) (todo : TodoMatch) (lines : Nat) : Str :=
  let arr := splitLines content
  let start := todo.start - lines
  let stop := min arr.length (todo.«end» + lines + 1)
  joinLines ((arr.drop start).take (stop - start))

/-- Stable insertion placing `t` before the first element with a strictly
smaller `start` (JS `sort((a, b) => b.start - a.start)`, stable). -/
def insertDesc (t : TodoMatch) : List TodoMatch → List TodoMatch
  | [] => [t]
  | x :: xs => if t.start < x.start then x :: insertDesc t xs else t :: x :: xs

/-- Stable descending sort by `start`
(`[...todos].sort((a, b) => b.start - a.start)`). -/
def sortDescByStart : List TodoMatch → List TodoMatch
  | [] => []
  | x :: xs => insertDesc x (sortDescByStart xs)

/-- Accumulator of the per-match loop in `rewriteTodos`: the text being
rewritten, the mutable cache object, and the four parallel arrays
`pending` / `contexts` / `fileKeys` / `todoKeys`. -/
structure LoopState where
  text : Str
  cache : Cache
  pending : List TodoMatch
  contexts : List Str
  fileKeys : List Str
  todoKeys : List Str
deriving DecidableEq

/-- The per-match loop of `rewriteTodos` (cache phase): per iteration,
check the deadline, look up the file-scoped then the global cache key,
apply a cached rewrite immediately (backfilling the file-scoped key when
only the global one hit), or accumulate the match as pending.  `k` is the
iteration index fed to the deadline oracle. -/
def rewriteLoop (cfg : Cfg) (relPath : Str) (timedOut : Nat → Bool) :
    List TodoMatch → Nat → LoopState → LoopState
  | [], _, s => s
  | todo :: rest, k, s =>
    if timedOut k then s
    else
      let codeContext := extractContext s.text todo cfg.contextLines
      let fileKey := cacheKey relPath todo.raw
      let tKey := todoKey todo.raw
      let cached := if cfg.cache then jsqq (s.cache.lookup fileKey) (s.cache.lookup tKey)
                    else none
      if truthy cached then
        let v := cached.getD []
        let cache1 := if cfg.cache && !truthy (s.cache.lookup fileKey)
                      then s.cache.set fileKey v else s.cache
        rewriteLoop cfg relPath timedOut rest (k + 1)
          { s with text := applyRewrites s.text todo v, cache := cache1 }
      else
        rewriteLoop cfg relPath timedOut rest (k + 1)
          { s with pending := s.pending ++ [todo],
                   contexts := s.contexts ++ [codeContext],
                   fileKeys := s.fileKeys ++ [fileKey],
                   todoKeys := s.todoKeys ++ [tKey] }

/-- The application loop over the aligned batch parts (`for (let i = 0;
i < pending.length; i++)`): trim each part, store it under both cache
keys when caching, and apply the rewrite. -/
def applyBatch (cfg : Cfg) : List (TodoMatch × Str × Str × Str) → Str → Cache → Str × Cache
  | [], text, cache => (text, cache)
  | (todo, part, fileKey, tKey) :: rest, text, cache =>
    let newComment := jsTrim part
    let cache1 := if cfg.cache then (cache.set fileKey newComment).set tKey newComment
                  else cache
    applyBatch cfg rest (applyRewrites text todo newComment) cache1

/-- Zip the pending matches with their response parts and cache keys. -/
def zipBatch : List TodoMatch → List Str → List Str → List Str →
    List (TodoMatch × Str × Str × Str)
  | t :: ts, p :: ps, f :: fs, k :: ks => (t, p, f, k) :: zipBatch ts ps fs ks
  | _, _, _, _ => []

/-- `rewriteTodos` from src/process.ts: sort descending by `start`, run
the cache phase, then—if any matches are pending—render one batched
prompt, call the completion service once, split the reply on `"\n---\n"`
and apply it only when the part count equals the pending count.  Returns
`none` when the text is unchanged, plus the final cache. -/
def rewriteTodos (env : Env) (cfg : Cfg) (relPath : Str)
    (content : Str) (todos : List TodoMatch) (cache : Cache) :
    Option Str × Cache :=
  let sorted := sortDescByStart todos
  let s := rewriteLoop cfg relPath env.timedOut sorted 0
    { text := content, cache := cache, pending := [], contexts := [],
      fileKeys := [], todoKeys := [] }
  let step2 : Str × Cache :=
    if s.pending.isEmpty then (s.text, s.cache)
    else
      let rendered := renderPromptBatch env.tpl relPath (langFromPath relPath)
        ((s.pending.zip s.contexts).map (fun p => (p.1.raw, p.2)))
        cfg.style cfg.sections
      match env.llm rendered with
      | none => (s.text, s.cache)
      | some out =>
        let parts := splitOnSep out (str "\n---\n")
        if parts.length = s.pending.length then
          applyBatch cfg (zipBatch s.pending parts s.fileKeys s.todoKeys) s.text s.cache
        else (s.text, s.cache)
  (if step2.1 = content then none else some step2.1, step2.2)

/-- Result of `processFile`, extended with the content that would be
written back (`none` when unchanged) and the cache map that would be
persisted (`none` when caching is disabled or no TODO was found, i.e. no
cache I/O happens). -/
structure ProcResult where
  changed : Nat
  todosFound : Nat
  written : Option Str
  cacheOut : Option Cache
deriving Repr, DecidableEq

/-- `processFile` from src/process.ts, with the file read modelled by the
`content` argument and the `readCache` result by `diskCache`.  Dry-run
only suppresses the physical write and is not distinguished here. -/
def processFile (env : Env) (cfg : Cfg) (relPath : Str)
    (content : Str) (diskCache : Cache) : ProcResult :=
  let todos := detectTodos content
  if todos.isEmpty then ⟨0, 0, none, none⟩
  else
    let cache := if cfg.cache then diskCache else []
    let (updated, cache1) := rewriteTodos env cfg relPath content todos cache
    let cacheOut := if cfg.cache then some cache1 else none
    match updated with
    | none => ⟨0, todos.length, none, cacheOut⟩
    | some u => ⟨1, todos.length, some u, cacheOut⟩

/-- The file content after one `processFile` pass (the detect-and-expand
pipeline applied to the content). -/
def pipelineOut (env : Env) (cfg : Cfg) (relPath : Str)
    (content : Str) (diskCache : Cache) : Str :=
  (processFile env cfg relPath content diskCache).written.getD content

/-! ## Cache store on disk (src/cache.ts)

`readCache`/`writeCache` delegate JSON handling to the platform's
`JSON.parse` / `JSON.stringify(data, null, 2)`.  Both are modelled
concretely below for the cache's document shape — a flat JSON object with
string values.  `jsonParseObj` returns `none` for malformed JSON and also
for well-formed JSON documents that are not flat string-to-string objects
(which `JSON.parse` would accept but which violate the declared
`Record<string, string>` shape and are never produced by `writeCache`).
The filesystem is a map from paths to file contents, with `none` covering
both an absent and an unreadable file; the best-effort `Deno.mkdir` in
`writeCache` only affects directories and is not modelled. -/

/-- A filesystem: path to readable file contents. -/
abbrev FileSys := Str → Option Str

/-- `JSON.stringify` escaping of one character. -/
def jsonEscapeChar (c : Char) : Str :=
  if c = '"' then ['\\', '"']
  else if c = '\\' then ['\\', '\\']
  else if c = '\x08' then ['\\', 'b']
  else if c = '\x0c' then ['\\', 'f']
  else if c = '\n' then ['\\', 'n']
  else if c = '\r' then ['\\', 'r']
  else if c = '\t' then ['\\', 't']
  else if c.toNat < 32 then
    ['\\', 'u', '0', '0', hexDigit (c.toNat / 16), hexDigit (c.toNat % 16)]
  else [c]

/-- A JSON string literal for `s`. -/
def jsonQuote (s : Str) : Str :=
  '"' :: (s.map jsonEscapeChar).flatten ++ ['"']

/-- The comma-and-newline separated member lines of
`JSON.stringify(data, null, 2)` at indent 2. -/
def jsonMembersStr : List (Str × Str) → Str
  | [] => []
  | [(k, v)] => str "  " ++ jsonQuote k ++ str ": " ++ jsonQuote v
  | (k, v) :: rest =>
    str "  " ++ jsonQuote k ++ str ": " ++ jsonQuote v ++ ',' :: '\n' :: jsonMembersStr rest

/-- `JSON.stringify(data, null, 2)` for a flat string-valued object. -/
def jsonStringifyCache (data : List (Str × Str)) : Str :=
  match data with
  | [] => ['\x7b', '\x7d']
  | _ => '\x7b' :: '\n' :: jsonMembersStr data ++ ['\n', '\x7d']

/-- Skip JSON insignificant whitespace. -/
def skipWs : Str → Str
  | [] => []
  | c :: rest =>
    if c = ' ' || c = '\n' || c = '\t' || c = '\r' then skipWs rest else c :: rest

/-- Value of one hex digit. -/
def hexVal (c : Char) : Option Nat :=
  if '0' ≤ c && c ≤ '9' then some (c.toNat - 48)
  else if 'a' ≤ c && c ≤ 'f' then some (c.toNat - 87)
  else if 'A' ≤ c && c ≤ 'F' then some (c.toNat - 55)
  else none

/-- The single-character JSON string escapes. -/
def simpleUnescape (e : Char) : Option Char :=
  if e = '"' then some '"'
  else if e = '\\' then some '\\'
  else if e = '/' then some '/'
  else if e = 'b' then some '\x08'
  else if e = 'f' then some '\x0c'
  else if e = 'n' then some '\n'
  else if e = 'r' then some '\r'
  else if e = 't' then some '\t'
  else none

/-- Parse the body of a JSON string (the opening quote already consumed);
returns the decoded string and the remainder after the closing quote. -/
def parseJStringAux : Str → Option (Str × Str)
  | [] => none
  | c :: rest =>
    if c = '"' then some ([], rest)
    else if c = '\\' then
      match rest with
      | [] => none
      | e :: rest2 =>
        if e = 'u' then
          match rest2 with
          | h1 :: h2 :: h3 :: h4 :: rest3 =>
            match hexVal h1, hexVal h2, hexVal h3, hexVal h4 with
            | some a, some b, some c2, some d =>
              let n := ((a * 16 + b) * 16 + c2) * 16 + d
              if n < 55296 ∨ 57344 ≤ n then
                match parseJStringAux rest3 with
                | some (v, r) => some (Char.ofNat n :: v, r)
                | none => none
              else none
            | _, _, _, _ => none
          | _ => none
        else
          match simpleUnescape e with
          | some d =>
            match parseJStringAux rest2 with
            | some (v, r) => some (d :: v, r)
            | none => none
          | none => none
    else if c.toNat < 32 then none
    else
      match parseJStringAux rest with
      | some (v, r) => some (c :: v, r)
      | none => none

/-- Parse one `"key": "value"` member (leading whitespace allowed) and
the one delimiter character that follows it. -/
def parseMember (s : Str) : Option ((Str × Str) × Char × Str) :=
  match skipWs s with
  | '"' :: rest =>
    match parseJStringAux rest with
    | some (k, r1) =>
      match skipWs r1 with
      | ':' :: r2 =>
        match skipWs r2 with
        | '"' :: r3 =>
          match parseJStringAux r3 with
          | some (v, r4) =>
            match skipWs r4 with
            | d :: r5 => some ((k, v), d, r5)
            | [] => none
          | none => none
        | _ => none
      | _ => none
    | none => none
  | _ => none

theorem skipWs_length_le (s : Str) : (skipWs s).length ≤ s.length := by
  induction s with
  | nil => simp [skipWs]
  | cons c rest ih =>
    simp only [skipWs]
    split
    · exact Nat.le_trans ih (Nat.le_succ _)
    · simp

/-- Member-list parsing loop.  The fuel starts at the document length
plus one in `jsonParseObj`; since every member consumes at least one
character this never runs out on a parseable document. -/
def parseMembersFuel : Nat → Str → Option (List (Str × Str) × Str)
  | 0, _ => none
  | fuel + 1, s =>
    match parseMember s with
    | some (kv, d, r) =>
      if d = ',' then
        match parseMembersFuel fuel r with
        | some (ms, r2) => some (kv :: ms, r2)
        | none => none
      else if d = '\x7d' then some ([kv], r)
      else none
    | none => none

/-- `JSON.parse` specialised to the cache document shape: a flat object
with string values and nothing but whitespace around it.  `none` models a
parse failure (and the shape violation discussed above). -/
def jsonParseObj (s : Str) : Option (List (Str × Str)) :=
  match skipWs s with
  | '\x7b' :: r =>
    match skipWs r with
    | '\x7d' :: r2 => if (skipWs r2).isEmpty then some [] else none
    | _ =>
      match parseMembersFuel (s.length + 1) r with
      | some (ms, r2) => if (skipWs r2).isEmpty then some ms else none
      | none => none
  | _ => none

/-- `readCache` from src/cache.ts: read the file and `JSON.parse` it,
returning `{}` on any failure (absent or unreadable file, malformed
JSON).  Total — the `try/catch` can never escape. -/
def readCache (fs : FileSys) (path : Str) : List (Str × Str) :=
  match fs path with
  | none => []
  | some text => (jsonParseObj text).getD []

/-- `writeCache` from src/cache.ts: serialize with
`JSON.stringify(data, null, 2)` and write to `path`. -/
def writeCache (fs : FileSys) (path : Str) (data : List (Str × Str)) : FileSys :=
  fun p => if p = path then some (jsonStringifyCache data) else fs p

/-! ## Theorems.  C-numbered theorems settle the frozen claims; helper
lemmas are shared. -/

theorem runLLMGo_attempt_le (t : Nat → AttemptOutcome) (remaining attempt : Nat) :
    (runLLMGo t attempt remaining).2 ≤ attempt + remaining := by
  induction remaining generalizing attempt with
  | zero =>
    cases h : t attempt with
    | ok text => simp only [runLLMGo, h]; split <;> simp
    | httpError s => simp [runLLMGo, h]
    | transportError b => simp [runLLMGo, h]
  | succ r ih =>
    cases h : t attempt with
    | ok text => simp only [runLLMGo, h]; split <;> simp
    | httpError s =>
      simp only [runLLMGo, h]
      split
      · exact Nat.le_trans (ih (attempt + 1)) (by omega)
      · simp
    | transportError b =>
      simp only [runLLMGo, h]
      split
      · exact Nat.le_trans (ih (attempt + 1)) (by omega)
      · simp

theorem runLLMGo_retried_retriable (t : Nat → AttemptOutcome) (remaining : Nat) :
    ∀ attempt k, attempt ≤ k → k < (runLLMGo t attempt remaining).2 →
      isRetriable (t k) = true := by
  induction remaining with
  | zero =>
    intro attempt k hak hk
    exfalso
    cases h : t attempt with
    | ok text =>
      simp only [runLLMGo, h] at hk
      split at hk <;> simp at hk <;> omega
    | httpError s => simp [runLLMGo, h] at hk; omega
    | transportError b => simp [runLLMGo, h] at hk; omega
  | succ r ih =>
    intro attempt k hak hk
    cases h : t attempt with
    | ok text =>
      exfalso
      simp only [runLLMGo, h] at hk
      split at hk <;> simp at hk <;> omega
    | httpError s =>
      simp only [runLLMGo, h] at hk
      split at hk
      · rcases Nat.eq_or_lt_of_le hak with heq | hlt
        · subst heq; rw [h]; assumption
        · exact ih (attempt + 1) k hlt hk
      · simp at hk; omega
    | transportError b =>
      simp only [runLLMGo, h] at hk
      split at hk
      · rcases Nat.eq_or_lt_of_le hak with heq | hlt
        · subst heq; rw [h]; assumption
        · exact ih (attempt + 1) k hlt hk
      · simp at hk; omega

theorem runLLMGo_terminal (t : Nat → AttemptOutcome) (remaining attempt : Nat)
    (hnotok : ∀ x, t attempt ≠ AttemptOutcome.ok x)
    (hnr : isRetriable (t attempt) = false) :
    runLLMGo t attempt remaining = (none, attempt) := by
  cases remaining with
  | zero =>
    cases h : t attempt with
    | ok text => exact absurd h (hnotok text)
    | httpError s => simp [runLLMGo, h]
    | transportError b => simp [runLLMGo, h]
  | succ r =>
    cases h : t attempt with
    | ok text => exact absurd h (hnotok text)
    | httpError s => rw [h] at hnr; simp [runLLMGo, h, hnr]
    | transportError b => rw [h] at hnr; simp [runLLMGo, h, hnr]

/-- Mock transport of spec §8.6: HTTP 500 on the first two attempts,
then a successful response. -/
def mockTransport500 : Nat → AttemptOutcome :=
  fun n => if n ≤ 2 then .httpError 500 else .ok (str " done ")

/-- Mock transport of spec §8.6: always HTTP 400. -/
def mockTransport400 : Nat → AttemptOutcome := fun _ => .httpError 400

/-- C3: the completion client makes at most `1 + retries` attempts; an
attempt is followed by another only if it was a timeout/abort or HTTP
408/429/5xx; a non-retryable failure ends the run at once with `null`;
with `retries = 2` and statuses 500, 500 then success, exactly 3 attempts
are made and the call succeeds; with persistent 400, exactly 1 attempt is
made and `null` is returned. -/
theorem runLLM_retry_policy :
    (∀ t r, (runLLM t r).2 ≤ 1 + r) ∧
    (∀ t r k, 1 ≤ k → k < (runLLM t r).2 → isRetriable (t k) = true) ∧
    (∀ (t : Nat → AttemptOutcome) r, (∀ x, t 1 ≠ AttemptOutcome.ok x) →
      isRetriable (t 1) = false → runLLM t r = (none, 1)) ∧
    runLLM mockTransport500 2 = (some (str "done"), 3) ∧
    (∀ r, runLLM mockTransport400 r = (none, 1)) := by
  refine ⟨?_, ?_, ?_, ?_, ?_⟩
  · intro t r
    have := runLLMGo_attempt_le t r 1
    simpa [runLLM, Nat.add_comm] using this
  · intro t r k hk hlt
    exact runLLMGo_retried_retriable t r 1 k hk hlt
  · intro t r hnotok hnr
    exact runLLMGo_terminal t r 1 hnotok hnr
  · decide
  · intro r
    exact runLLMGo_terminal mockTransport400 r 1
      (fun x h => AttemptOutcome.noConfusion h) (by decide)

/-- Witness for C3: the hypothesis-bearing clauses applied at concrete
inputs — attempt 1 of the 500-500-success transport was indeed followed
by a retry because it was retriable, and a non-retryable 400 ends after
one attempt. -/
theorem runLLM_retry_policy_witness :
    isRetriable (mockTransport500 1) = true ∧
    runLLM mockTransport400 7 = (none, 1) :=
  ⟨runLLM_retry_policy.2.1 mockTransport500 2 1 (by decide) (by decide),
   runLLM_retry_policy.2.2.1 mockTransport400 7
     (fun x h => AttemptOutcome.noConfusion h) (by decide)⟩

theorem char_ofNat_toNat (c : Char) (h : c.toNat < 55296) : Char.ofNat c.toNat = c := by
  have hv : c.toNat.isValidChar := Or.inl h
  simp [Char.ofNat, hv, Char.ofNatAux]
  apply Char.ext
  apply UInt32.ext
  simp [Char.toNat, UInt32.toNat]

theorem hexVal_hexDigit (n : Nat) (h : n < 16) : hexVal (hexDigit n) = some n := by
  interval_cases n <;> decide

theorem jsonEscape_parse (k : Str) :
    ∀ rest, parseJStringAux ((k.map jsonEscapeChar).flatten ++ '"' :: rest) = some (k, rest) := by
  induction k with
  | nil =>
    intro rest
    rw [List.map_nil, List.flatten_nil, List.nil_append, parseJStringAux.eq_def]
    simp +decide
  | cons c k ih =>
    intro rest
    rw [List.map_cons, List.flatten_cons, List.append_assoc]
    by_cases h1 : c = '"'
    · subst h1
      rw [jsonEscapeChar.eq_def]
      simp +decide only []
      rw [parseJStringAux.eq_def]
      simp +decide [simpleUnescape, ih]
    · by_cases h2 : c = '\\'
      · subst h2
        rw [jsonEscapeChar.eq_def]
        simp +decide only []
        rw [parseJStringAux.eq_def]
        simp +decide [simpleUnescape, ih]
      · by_cases h3 : c = '\x08'
        · subst h3
          rw [jsonEscapeChar.eq_def]
          simp +decide only []
          rw [parseJStringAux.eq_def]
          simp +decide [simpleUnescape, ih]
        · by_cases h4 : c = '\x0c'
          · subst h4
            rw [jsonEscapeChar.eq_def]
            simp +decide only []
            rw [parseJStringAux.eq_def]
            simp +decide [simpleUnescape, ih]
          · by_cases h5 : c = '\n'
            · subst h5
              rw [jsonEscapeChar.eq_def]
              simp +decide only []
              rw [parseJStringAux.eq_def]
              simp +decide [simpleUnescape, ih]
            · by_cases h6 : c = '\r'
              · subst h6
                rw [jsonEscapeChar.eq_def]
                simp +decide only []
                rw [parseJStringAux.eq_def]
                simp +decide [simpleUnescape, ih]
              · by_cases h7 : c = '\t'
                · subst h7
                  rw [jsonEscapeChar.eq_def]
                  simp +decide only []
                  rw [parseJStringAux.eq_def]
                  simp +decide [simpleUnescape, ih]
                · by_cases h8 : c.toNat < 32
                  · have hv1 := hexVal_hexDigit (c.toNat / 16) (by omega)
                    have hv2 := hexVal_hexDigit (c.toNat % 16) (by omega)
                    have h0 : hexVal '0' = some 0 := by decide
                    have hc := char_ofNat_toNat c (by omega)
                    have hn : ((0 * 16 + 0) * 16 + c.toNat / 16) * 16 + c.toNat % 16 = c.toNat := by
                      omega
                    rw [jsonEscapeChar.eq_def]
                    simp only [if_neg h1, if_neg h2, if_neg h3, if_neg h4, if_neg h5,
                      if_neg h6, if_neg h7, if_pos h8]
                    simp only [List.cons_append, List.nil_append]
                    rw [parseJStringAux.eq_def]
                    simp +decide [hv1, hv2, h0, hn, ih, hc]
                    have h9 : c.toNat / 16 * 16 + c.toNat % 16 = c.toNat := by omega
                    rw [h9]
                    exact ⟨Or.inl (by omega), hc⟩
                  · rw [jsonEscapeChar.eq_def]
                    simp only [if_neg h1, if_neg h2, if_neg h3, if_neg h4, if_neg h5,
                      if_neg h6, if_neg h7, if_neg h8]
                    simp only [List.cons_append, List.nil_append]
                    rw [parseJStringAux.eq_def]
                    simp only [if_neg h1, if_neg h2, if_neg h8]
                    simp [ih]

theorem skipWs_sp (x : Str) : skipWs (' ' :: x) = skipWs x := by simp [skipWs]

theorem skipWs_nl (x : Str) : skipWs ('\n' :: x) = skipWs x := by simp [skipWs]

theorem parseMember_spec (k v : Str) (tail : Str) :
    parseMember (str "  " ++ jsonQuote k ++ str ": " ++ jsonQuote v ++ tail) =
      match skipWs tail with
      | d :: r5 => some ((k, v), d, r5)
      | [] => none := by
  unfold parseMember
  simp +decide [str, jsonQuote, skipWs_sp, skipWs_nl, jsonEscape_parse, skipWs,
    List.append_assoc]

theorem parseMember_nl (x : Str) : parseMember ('\n' :: x) = parseMember x := by
  unfold parseMember
  rw [skipWs_nl]

theorem parseMembersFuel_nl (f : Nat) (x : Str) :
    parseMembersFuel f ('\n' :: x) = parseMembersFuel f x := by
  cases f with
  | zero => rfl
  | succ g => simp only [parseMembersFuel]; rw [parseMember_nl]

theorem parseMembersFuel_stringify (ms : List (Str × Str)) :
    ∀ fuel, ms.length ≤ fuel → ms ≠ [] →
      parseMembersFuel fuel (jsonMembersStr ms ++ '\n' :: ['\x7d']) = some (ms, []) := by
  induction ms with
  | nil => intro fuel _ hne; exact absurd rfl hne
  | cons m ms ih =>
    obtain ⟨k, v⟩ := m
    intro fuel hf _
    cases fuel with
    | zero => simp at hf
    | succ f =>
      cases ms with
      | nil =>
        simp only [jsonMembersStr, parseMembersFuel, List.append_assoc]
        rw [show (str "  " ++ (jsonQuote k ++ (str ": " ++ (jsonQuote v ++ '\n' :: ['\x7d'])))) =
          (str "  " ++ jsonQuote k ++ str ": " ++ jsonQuote v ++ '\n' :: ['\x7d']) by
            simp [List.append_assoc]]
        rw [parseMember_spec k v ('\n' :: ['\x7d'])]
        simp +decide [skipWs_nl, skipWs]
      | cons m2 ms2 =>
        simp only [jsonMembersStr, parseMembersFuel, List.append_assoc, List.cons_append]
        rw [show (str "  " ++ (jsonQuote k ++ (str ": " ++ (jsonQuote v ++ ',' :: '\n' ::
            (jsonMembersStr (m2 :: ms2) ++ '\n' :: ['\x7d']))))) =
          (str "  " ++ jsonQuote k ++ str ": " ++ jsonQuote v ++ ',' :: '\n' ::
            (jsonMembersStr (m2 :: ms2) ++ '\n' :: ['\x7d'])) by
            simp [List.append_assoc]]
        rw [parseMember_spec k v (',' :: '\n' :: (jsonMembersStr (m2 :: ms2) ++ '\n' :: ['\x7d']))]
        have hcomma : skipWs (',' :: '\n' :: (jsonMembersStr (m2 :: ms2) ++ '\n' :: ['\x7d'])) =
            ',' :: '\n' :: (jsonMembersStr (m2 :: ms2) ++ '\n' :: ['\x7d']) := by
          simp [skipWs]
        rw [hcomma]
        simp +decide only []
        rw [parseMembersFuel_nl, ih f (by simpa using hf) (by simp)]
        simp

theorem jsonMembersStr_length_ge (ms : List (Str × Str)) :
    ms.length ≤ (jsonMembersStr ms).length := by
  induction ms with
  | nil => simp
  | cons m ms ih =>
    obtain ⟨k, v⟩ := m
    cases ms with
    | nil => simp [jsonMembersStr, jsonQuote, str]
    | cons m2 ms2 =>
      simp only [jsonMembersStr, jsonQuote, str] at *
      simp only [List.length_cons, List.length_append] at *
      omega

theorem jsonParse_stringify (ms : List (Str × Str)) :
    jsonParseObj (jsonStringifyCache ms) = some ms := by
  cases ms with
  | nil => decide
  | cons m ms2 =>
    obtain ⟨k, v⟩ := m
    simp only [jsonStringifyCache]
    rw [jsonParseObj.eq_def]
    simp only [List.cons_append]
    have h1 : skipWs ('\x7b' :: '\n' :: (jsonMembersStr ((k, v) :: ms2) ++ ['\n', '\x7d'])) =
        '\x7b' :: '\n' :: (jsonMembersStr ((k, v) :: ms2) ++ ['\n', '\x7d']) := by
      simp [skipWs]
    rw [h1]
    simp +decide only []
    have hlen : ((k, v) :: ms2).length ≤
        ('\x7b' :: '\n' :: (jsonMembersStr ((k, v) :: ms2) ++ ['\n', '\x7d'])).length + 1 := by
      have := jsonMembersStr_length_ge ((k, v) :: ms2)
      simp only [List.length_cons, List.length_append] at *
      omega
    have hrun : parseMembersFuel
        (('\x7b' :: '\n' :: (jsonMembersStr ((k, v) :: ms2) ++ ['\n', '\x7d'])).length + 1)
        ('\n' :: (jsonMembersStr ((k, v) :: ms2) ++ ['\n', '\x7d'])) =
        some ((k, v) :: ms2, []) := by
      rw [parseMembersFuel_nl]
      exact parseMembersFuel_stringify ((k, v) :: ms2) _ hlen (by simp)
    cases ms2 with
    | nil =>
      have hsk : skipWs ('\n' :: (jsonMembersStr [(k, v)] ++ ['\n', '\x7d'])) =
          '"' :: ((k.map jsonEscapeChar).flatten ++ '"' ::
            (str ": " ++ jsonQuote v ++ ['\n', '\x7d'])) := by
        simp [skipWs_nl, skipWs_sp, jsonMembersStr, jsonQuote, str, List.append_assoc,
          List.cons_append, skipWs]
      rw [hsk]
      rw [hrun]
      simp [skipWs]
    | cons m2 ms3 =>
      have hsk : skipWs ('\n' :: (jsonMembersStr ((k, v) :: m2 :: ms3) ++ ['\n', '\x7d'])) =
          '"' :: ((k.map jsonEscapeChar).flatten ++ '"' ::
            (str ": " ++ jsonQuote v ++ ',' :: '\n' ::
              (jsonMembersStr (m2 :: ms3) ++ ['\n', '\x7d']))) := by
        simp [skipWs_nl, skipWs_sp, jsonMembersStr, jsonQuote, str, List.append_assoc,
          List.cons_append, skipWs]
      rw [hsk]
      rw [hrun]
      simp [skipWs]

/-- C8: cache persistence round-trips — for every string-to-string
mapping and path, reading the path right after `writeCache` returns the
identical mapping; and `readCache` of an absent/unreadable file or of a
file whose contents do not parse returns the empty mapping (it is a total
function: the `try/catch` never lets an exception escape). -/
theorem readCache_writeCache_roundtrip :
    (∀ (fs : FileSys) (path : Str) (data : List (Str × Str)),
      readCache (writeCache fs path data) path = data) ∧
    (∀ (fs : FileSys) (path : Str), fs path = none → readCache fs path = []) ∧
    (∀ (fs : FileSys) (path text : Str), fs path = some text →
      jsonParseObj text = none → readCache fs path = []) := by
  refine ⟨?_, ?_, ?_⟩
  · intro fs path data
    simp [readCache, writeCache, jsonParse_stringify]
  · intro fs path h
    simp [readCache, h]
  · intro fs path text h hp
    simp [readCache, h, hp]

/-- Witness for C8: a concrete missing file and a concrete non-JSON file
both read back as the empty mapping, and a concrete two-entry mapping
(spec §8.3) survives the round trip. -/
theorem readCache_writeCache_roundtrip_witness :
    readCache (fun _ => none) (str "p") = [] ∧
    readCache (fun _ => some (str "not json")) (str "p") = [] ∧
    readCache (writeCache (fun _ => none) (str "p")
      [(str "a", str "1"), (str "b", str "two")]) (str "p") =
      [(str "a", str "1"), (str "b", str "two")] :=
  ⟨readCache_writeCache_roundtrip.2.1 (fun _ => none) (str "p") rfl,
   readCache_writeCache_roundtrip.2.2 (fun _ => some (str "not json")) (str "p")
     (str "not json") rfl (by decide),
   readCache_writeCache_roundtrip.1 (fun _ => none) (str "p")
     [(str "a", str "1"), (str "b", str "two")]⟩

/-- C6: every match returned by `detectTodos` has unstructured raw text —
any match containing `AI TASK:` or one of the whole words Context, Goal,
Steps, Constraints, Acceptance (case-sensitively) is discarded.  In
particular a block comment starting with `TODO` but containing the words
Context and Goal is not returned, while a lowercase `context` does not
trigger the filter. -/
theorem detectTodos_filters_structured :
    (∀ content m, m ∈ detectTodos content → isStructured m.raw = false) ∧
    detectTodos (str "/* TODO: x\nhas Context here\nand Goal too\n*/") = [] ∧
    (detectTodos (str "// TODO: in context of goals")).length = 1 := by
  refine ⟨?_, by decide, by decide⟩
  intro content m hm
  simp only [detectTodos, List.mem_filter] at hm
  simpa using hm.2

/-- Witness for C6: the universally quantified clause applied to a
concrete content with one unstructured match. -/
theorem detectTodos_filters_structured_witness :
    isStructured (str "// TODO: x") = false :=
  detectTodos_filters_structured.1 (str "// TODO: x")
    ⟨0, 0, str "// TODO: x", Style.line, str "//"⟩ (by decide)

theorem splitLines_ne_nil (s : Str) : splitLines s ≠ [] := by
  induction s with
  | nil => simp [splitLines]
  | cons c rest ih =>
    simp only [splitLines]
    split
    · simp
    · cases h : splitLines rest with
      | nil => exact absurd h ih
      | cons a t => simp [h]

theorem mem_splitLines_no_nl (s : Str) : ∀ p ∈ splitLines s, '\n' ∉ p := by
  induction s with
  | nil =>
    intro p hp
    simp [splitLines] at hp
    subst hp
    simp
  | cons c rest ih =>
    intro p hp
    simp only [splitLines] at hp
    by_cases hc : c = '\n'
    · rw [if_pos hc] at hp
      rcases List.mem_cons.mp hp with h1 | h2
      · subst h1; simp
      · exact ih p h2
    · rw [if_neg hc] at hp
      cases h : splitLines rest with
      | nil => exact absurd h (splitLines_ne_nil rest)
      | cons a t =>
        rw [h] at hp
        rcases List.mem_cons.mp hp with h1 | h2
        · subst h1
          intro hmem
          rcases List.mem_cons.mp hmem with h3 | h4
          · exact hc h3.symm
          · exact ih a (h ▸ List.mem_cons_self a t) h4
        · exact ih p (h ▸ List.mem_cons_of_mem a h2)

theorem splitLines_append_nl (x y : Str) :
    splitLines (x ++ '\n' :: y) = splitLines x ++ splitLines y := by
  induction x with
  | nil => simp [splitLines]
  | cons c x ih =>
    by_cases hc : c = '\n'
    · subst hc; simp [splitLines, ih]
    · simp only [List.cons_append, splitLines, if_neg hc]
      rw [List.append_eq, ih]
      cases h : splitLines x with
      | nil => exact absurd h (splitLines_ne_nil x)
      | cons a t => simp [h]

theorem splitLines_no_nl (x : Str) (h : '\n' ∉ x) : splitLines x = [x] := by
  induction x with
  | nil => simp [splitLines]
  | cons c x ih =>
    have hc : ¬c = '\n' := fun hq => h (hq ▸ List.mem_cons_self c x)
    have hx : '\n' ∉ x := fun hq => h (List.mem_cons_of_mem c hq)
    simp only [splitLines, if_neg hc, ih hx]

theorem splitLines_joinLines (ps : List Str) (hne : ps ≠ [])
    (h : ∀ p ∈ ps, '\n' ∉ p) : splitLines (joinLines ps) = ps := by
  induction ps with
  | nil => exact absurd rfl hne
  | cons p ps ih =>
    cases ps with
    | nil => simp [joinLines, splitLines_no_nl p (h p (List.mem_cons_self p []))]
    | cons q ps2 =>
      have : joinLines (p :: q :: ps2) = p ++ '\n' :: joinLines (q :: ps2) := by
        simp [joinLines]
      rw [this, splitLines_append_nl,
        splitLines_no_nl p (h p (List.mem_cons_self p (q :: ps2))),
        ih (by simp) (fun r hr => h r (List.mem_cons_of_mem p hr))]
      simp

theorem splitLines_applyRewrites (content : Str) (todo : TodoMatch) (new : Str) :
    splitLines (applyRewrites content todo new) =
      (splitLines content).take todo.start ++ splitLines (normalizeComment todo new) ++
      (splitLines content).drop (todo.«end» + 1) := by
  unfold applyRewrites
  apply splitLines_joinLines
  · intro hnil
    rcases List.append_eq_nil.mp hnil with ⟨h1, h2⟩
    rcases List.append_eq_nil.mp h1 with ⟨h3, h4⟩
    exact splitLines_ne_nil _ h4
  · intro p hp
    rcases List.mem_append.mp hp with h1 | h2
    · rcases List.mem_append.mp h1 with h3 | h4
      · exact mem_splitLines_no_nl content p (List.mem_of_mem_take h3)
      · exact mem_splitLines_no_nl _ p h4
    · exact mem_splitLines_no_nl content p (List.mem_of_mem_drop h2)

/-- C10: `applyRewrites` touches only the replaced line range — the
output's line array is the input lines before `start`, then the
normalized replacement's lines, then the input lines after `end`,
with every line outside `[start, end]` unchanged and in order. -/
theorem applyRewrites_frame (content : Str) (todo : TodoMatch) (new : Str)
    (hrange : todo.start ≤ todo.«end» ∧ todo.«end» < (splitLines content).length) :
    splitLines (applyRewrites content todo new) =
      (splitLines content).take todo.start ++ splitLines (normalizeComment todo new) ++
      (splitLines content).drop (todo.«end» + 1) :=
  splitLines_applyRewrites content todo new

/-- Witness for C10: the frame equation evaluated at a concrete file and
match, with the untouched lines listed explicitly. -/
theorem applyRewrites_frame_witness :
    splitLines (applyRewrites (str "keep1\n// TODO: x\nkeep2")
        ⟨1, 1, str "// TODO: x", Style.line, str "//"⟩ (str "done")) =
      (splitLines (str "keep1\n// TODO: x\nkeep2")).take 1 ++
      splitLines (normalizeComment ⟨1, 1, str "// TODO: x", Style.line, str "//"⟩ (str "done")) ++
      (splitLines (str "keep1\n// TODO: x\nkeep2")).drop 2 ∧
    splitLines (applyRewrites (str "keep1\n// TODO: x\nkeep2")
        ⟨1, 1, str "// TODO: x", Style.line, str "//"⟩ (str "done")) =
      [str "keep1", str "// done", str "keep2"] :=
  ⟨applyRewrites_frame (str "keep1\n// TODO: x\nkeep2")
      ⟨1, 1, str "// TODO: x", Style.line, str "//"⟩ (str "done") (by decide),
   by decide⟩

/-- C5: `applyRewrites` normalizes the replacement to the match's style.
Line style: every replacement line whose whitespace-trimmed form does not
start with the original marker is prefixed with `marker ++ " "`, and
lines already carrying the marker are left unchanged.  Block style: when
the trimmed replacement does not start with `/*` the whole trimmed text
is wrapped as `/*`, newline, text, newline, `*/`; otherwise the
replacement passes through unchanged (never wrapped twice). -/
theorem applyRewrites_style_preservation (content : Str) (todo : TodoMatch) (new : Str) :
    (todo.style = Style.line → '\n' ∉ todo.marker →
      splitLines (applyRewrites content todo new) =
        (splitLines content).take todo.start ++
        (splitLines new).map (fun l => if todo.marker.isPrefixOf (jsTrim l) then l
                                       else todo.marker ++ ' ' :: l) ++
        (splitLines content).drop (todo.«end» + 1)) ∧
    (todo.style = Style.block → ¬(str "/*").isPrefixOf (jsTrim new) = true →
      splitLines (applyRewrites content todo new) =
        (splitLines content).take todo.start ++
        (str "/*" :: (splitLines (jsTrim new) ++ [str "*/"])) ++
        (splitLines content).drop (todo.«end» + 1)) ∧
    (todo.style = Style.block → (str "/*").isPrefixOf (jsTrim new) = true →
      splitLines (applyRewrites content todo new) =
        (splitLines content).take todo.start ++ splitLines new ++
        (splitLines content).drop (todo.«end» + 1)) := by
  refine ⟨?_, ?_, ?_⟩
  · intro hs hm
    rw [splitLines_applyRewrites]
    have hn : splitLines (normalizeComment todo new) =
        (splitLines new).map (fun l => if todo.marker.isPrefixOf (jsTrim l) then l
                                       else todo.marker ++ ' ' :: l) := by
      unfold normalizeComment
      rw [hs]
      apply splitLines_joinLines
      · simp [splitLines_ne_nil]
      · intro p hp
        rcases List.mem_map.mp hp with ⟨l, hl, rfl⟩
        have hlnl : '\n' ∉ l := mem_splitLines_no_nl new l hl
        split
        · exact hlnl
        · intro hmem
          rcases List.mem_append.mp hmem with h1 | h2
          · exact hm h1
          · rcases List.mem_cons.mp h2 with h3 | h4
            · exact absurd h3.symm (by decide)
            · exact hlnl h4
    rw [hn]
  · intro hs hpre
    rw [splitLines_applyRewrites]
    have hn : splitLines (normalizeComment todo new) =
        str "/*" :: (splitLines (jsTrim new) ++ [str "*/"]) := by
      unfold normalizeComment
      rw [hs]
      simp only [hpre, if_neg, Bool.not_eq_true]
      have hassoc : (str "/*" ++ '\n' :: jsTrim new ++ '\n' :: str "*/") =
          str "/*" ++ '\n' :: (jsTrim new ++ '\n' :: str "*/") := by
        simp [List.append_assoc]
      rw [hassoc, splitLines_append_nl, splitLines_append_nl]
      have h1 : splitLines (str "/*") = [str "/*"] := by decide
      have h2 : splitLines (str "*/") = [str "*/"] := by decide
      rw [h1, h2]
      simp
    rw [hn]
  · intro hs hpre
    rw [splitLines_applyRewrites]
    have hn : normalizeComment todo new = new := by
      unfold normalizeComment
      rw [hs]
      simp [hpre]
    rw [hn]

/-- Witness for C5: each style clause evaluated at a concrete match —
a marker-less two-line replacement gets `// ` prefixes, an unwrapped
block replacement is wrapped exactly once, and a replacement already
starting with `/*` passes through unwrapped. -/
theorem applyRewrites_style_preservation_witness :
    splitLines (applyRewrites (str "x\n// TODO: a\ny")
        ⟨1, 1, str "// TODO: a", Style.line, str "//"⟩ (str "Context: X\nGoal: Y")) =
      [str "x", str "// Context: X", str "// Goal: Y", str "y"] ∧
    splitLines (applyRewrites (str "/* TODO: b */")
        ⟨0, 0, str "/* TODO: b */", Style.block, str "/*"⟩ (str "Context: Z")) =
      [str "/*", str "Context: Z", str "*/"] ∧
    splitLines (applyRewrites (str "/* TODO: b */")
        ⟨0, 0, str "/* TODO: b */", Style.block, str "/*"⟩ (str "/* already */")) =
      [str "/* already */"] :=
  ⟨((applyRewrites_style_preservation _ _ _).1 rfl (by decide)).trans (by decide),
   ((applyRewrites_style_preservation _ _ _).2.1 rfl (by decide)).trans (by decide),
   ((applyRewrites_style_preservation _ _ _).2.2 rfl (by decide)).trans (by decide)⟩

theorem Cache.lookup_set (c : Cache) (k v : Str) :
    Cache.lookup (Cache.set c k v) k = some v := by
  induction c with
  | nil => simp [Cache.set, Cache.lookup, List.find?]
  | cons p rest ih =>
    obtain ⟨k0, v0⟩ := p
    by_cases h : k0 = k
    · subst h
      simp [Cache.set, Cache.lookup, List.find?]
    · simp only [Cache.set, if_neg h]
      simp only [Cache.lookup, List.find?] at *
      simp [h, ih]

/-- C7: in the per-match loop, the cache is consulted under the
file-scoped key first and then the global key.  When only the global key
holds a (non-empty) value, that value is applied via `applyRewrites`, the
file-scoped key is backfilled in the in-memory cache (so the later cache
write persists it), and the match is not added to the pending batch — so
the completion service is never invoked for it.  When the file-scoped
key hits, its value is used and the cache is left unchanged. -/
theorem rewriteLoop_cache_policy :
    (∀ cfg relPath timedOut todo rest k s v,
      cfg.cache = true → timedOut k = false →
      Cache.lookup s.cache (cacheKey relPath todo.raw) = none →
      Cache.lookup s.cache (todoKey todo.raw) = some v → v ≠ [] →
      rewriteLoop cfg relPath timedOut (todo :: rest) k s =
        rewriteLoop cfg relPath timedOut rest (k + 1)
          { s with text := applyRewrites s.text todo v,
                   cache := Cache.set s.cache (cacheKey relPath todo.raw) v }) ∧
    (∀ (c : Cache) k v, Cache.lookup (Cache.set c k v) k = some v) ∧
    (∀ cfg relPath timedOut todo rest k s w,
      cfg.cache = true → timedOut k = false →
      Cache.lookup s.cache (cacheKey relPath todo.raw) = some w → w ≠ [] →
      rewriteLoop cfg relPath timedOut (todo :: rest) k s =
        rewriteLoop cfg relPath timedOut rest (k + 1)
          { s with text := applyRewrites s.text todo w }) := by
  refine ⟨?_, Cache.lookup_set, ?_⟩
  · intro cfg relPath timedOut todo rest k s v hc ht hfk htk hv
    simp only [rewriteLoop, ht, Bool.false_eq_true, if_false, hc, if_true, hfk, htk, jsqq]
    have htr : truthy (some v) = true := by
      simp [truthy, List.isEmpty_iff, hv]
    rw [htr]
    simp [truthy, Option.getD]
  · intro cfg relPath timedOut todo rest k s w hc ht hfk hw
    simp only [rewriteLoop, ht, Bool.false_eq_true, if_false, hc, if_true, hfk, jsqq]
    have htr : truthy (some w) = true := by
      simp [truthy, List.isEmpty_iff, hw]
    rw [htr]
    simp [truthy, List.isEmpty_iff, hw, Option.getD]

/-- Witness for C7: a concrete TODO whose text is cached only under the
global key — the cached text is applied and the file-scoped key is
backfilled next to the global one. -/
theorem rewriteLoop_cache_policy_witness :
    rewriteLoop ⟨true, 3, str "succinct", defaultSections, none⟩ (str "a.ts") (fun _ => false)
      [⟨0, 0, str "// TODO: a", Style.line, str "//"⟩] 0
      ⟨str "// TODO: a", [(todoKey (str "// TODO: a"), str "cached")], [], [], [], []⟩ =
      ⟨str "// cached",
       [(todoKey (str "// TODO: a"), str "cached"),
        (cacheKey (str "a.ts") (str "// TODO: a"), str "cached")], [], [], [], []⟩ :=
  (rewriteLoop_cache_policy.1 ⟨true, 3, str "succinct", defaultSections, none⟩ (str "a.ts")
    (fun _ => false) ⟨0, 0, str "// TODO: a", Style.line, str "//"⟩ [] 0
    ⟨str "// TODO: a", [(todoKey (str "// TODO: a"), str "cached")], [], [], [], []⟩
    (str "cached") rfl rfl (by decide) (by decide) (by decide)).trans (by decide)

/-- C1: when the completion call for a file's pending batch returns text
that splits on the `\n---\n` separator into a number of parts different
from the number of pending matches, the whole batch is discarded — the
resulting text and cache are exactly those of the cache phase — while
`processFile` still reports `todosFound` equal to the total number of
matches detected. -/
theorem processFile_batch_misalignment (env : Env) (cfg : Cfg) (relPath content : Str)
    (diskCache : Cache) (out : Str)
    (hne : detectTodos content ≠ [])
    (hllm : env.llm (renderPromptBatch env.tpl relPath (langFromPath relPath)
      (((rewriteLoop cfg relPath env.timedOut (sortDescByStart (detectTodos content)) 0
          ⟨content, if cfg.cache then diskCache else [], [], [], [], []⟩).pending.zip
        (rewriteLoop cfg relPath env.timedOut (sortDescByStart (detectTodos content)) 0
          ⟨content, if cfg.cache then diskCache else [], [], [], [], []⟩).contexts).map
        (fun p => (p.1.raw, p.2))) cfg.style cfg.sections) = some out)
    (hparts : (splitOnSep out (str "\n---\n")).length ≠
      (rewriteLoop cfg relPath env.timedOut (sortDescByStart (detectTodos content)) 0
        ⟨content, if cfg.cache then diskCache else [], [], [], [], []⟩).pending.length) :
    (rewriteTodos env cfg relPath content (detectTodos content)
        (if cfg.cache then diskCache else []) =
      ((if (rewriteLoop cfg relPath env.timedOut (sortDescByStart (detectTodos content)) 0
          ⟨content, if cfg.cache then diskCache else [], [], [], [], []⟩).text = content
        then none
        else some (rewriteLoop cfg relPath env.timedOut (sortDescByStart (detectTodos content)) 0
          ⟨content, if cfg.cache then diskCache else [], [], [], [], []⟩).text),
       (rewriteLoop cfg relPath env.timedOut (sortDescByStart (detectTodos content)) 0
          ⟨content, if cfg.cache then diskCache else [], [], [], [], []⟩).cache)) ∧
    (processFile env cfg relPath content diskCache).todosFound =
      (detectTodos content).length := by
  constructor
  · unfold rewriteTodos
    by_cases hp : (rewriteLoop cfg relPath env.timedOut (sortDescByStart (detectTodos content)) 0
        ⟨content, if cfg.cache then diskCache else [], [], [], [], []⟩).pending.isEmpty
    · simp only [hp, if_true]
    · simp only [hp, Bool.false_eq_true, if_false]
      simp only [hllm]
      rw [if_neg hparts]
  · unfold processFile
    rw [if_neg (by simpa [List.isEmpty_iff] using hne)]
    rcases hrw : rewriteTodos env cfg relPath content (detectTodos content)
        (if cfg.cache then diskCache else []) with ⟨upd, c1⟩
    cases upd <;> simp [hrw]

/-- Witness for C1 (spec §8.7): a mock completion returning 2 parts for a
3-pending-TODO batch yields zero rewrites for the file — content
unchanged, `changed = 0` — while `todosFound` still reports 3. -/
theorem processFile_batch_misalignment_witness :
    (processFile ⟨none, fun _ => some (str "part one\n---\npart two"), fun _ => false⟩
      ⟨false, 3, str "succinct", defaultSections, none⟩ (str "a.ts")
      (str "// TODO: a\nx\n# TODO: b\n// TODO: c") []).todosFound = 3 ∧
    processFile ⟨none, fun _ => some (str "part one\n---\npart two"), fun _ => false⟩
      ⟨false, 3, str "succinct", defaultSections, none⟩ (str "a.ts")
      (str "// TODO: a\nx\n# TODO: b\n// TODO: c") [] = ⟨0, 3, none, none⟩ :=
  ⟨((processFile_batch_misalignment
      ⟨none, fun _ => some (str "part one\n---\npart two"), fun _ => false⟩
      ⟨false, 3, str "succinct", defaultSections, none⟩ (str "a.ts")
      (str "// TODO: a\nx\n# TODO: b\n// TODO: c") []
      (str "part one\n---\npart two") (by decide) rfl (by decide)).2).trans (by decide),
   by decide⟩

set_option maxRecDepth 100000 in
/-- Counterexample for C2: with the deterministic completion that echoes
the prompt, one pass over `"// TODO: a"` produces text in which the
second pass detects pending TODOs again (nothing was filtered as
structured), and the second pass changes the content further — the
pipeline is not idempotent for an arbitrary deterministic completion. -/
theorem pipeline_not_idempotent_counterexample :
    detectTodos (pipelineOut ⟨none, fun p => some p, fun _ => false⟩
      ⟨false, 3, str "succinct", defaultSections, none⟩ (str "a.ts") (str "// TODO: a") []) ≠ [] ∧
    pipelineOut ⟨none, fun p => some p, fun _ => false⟩
      ⟨false, 3, str "succinct", defaultSections, none⟩ (str "a.ts")
      (pipelineOut ⟨none, fun p => some p, fun _ => false⟩
        ⟨false, 3, str "succinct", defaultSections, none⟩ (str "a.ts") (str "// TODO: a") []) [] ≠
    pipelineOut ⟨none, fun p => some p, fun _ => false⟩
      ⟨false, 3, str "succinct", defaultSections, none⟩ (str "a.ts") (str "// TODO: a") [] := by
  constructor
  · decide
  · decide

/-- C2 amended: the pipeline is idempotent whenever the first pass's
output contains no pending TODO — i.e. when every match the detector
finds in it is filtered as already structured (or none is found at all),
the second pass changes nothing.  (The counterexample shows this
hypothesis is not automatic for an arbitrary deterministic completion.) -/
theorem pipeline_second_pass_noop (env : Env) (cfg : Cfg) (relPath content : Str)
    (dc dc2 : Cache)
    (h : detectTodos (pipelineOut env cfg relPath content dc) = []) :
    pipelineOut env cfg relPath (pipelineOut env cfg relPath content dc) dc2 =
      pipelineOut env cfg relPath content dc := by
  generalize pipelineOut env cfg relPath content dc = c1 at h ⊢
  unfold pipelineOut processFile
  rw [h]
  simp

/-- Witness for C2 (amended): a structured mock completion turns
`"// TODO: a"` into a fully structured comment; the detector finds
nothing in the output and a second pass leaves it unchanged. -/
theorem pipeline_second_pass_noop_witness :
    pipelineOut ⟨none, fun _ => some (str "Context: c\nGoal: g"), fun _ => false⟩
      ⟨false, 3, str "succinct", defaultSections, none⟩ (str "a.ts")
      (pipelineOut ⟨none, fun _ => some (str "Context: c\nGoal: g"), fun _ => false⟩
        ⟨false, 3, str "succinct", defaultSections, none⟩ (str "a.ts") (str "// TODO: a") []) [] =
    pipelineOut ⟨none, fun _ => some (str "Context: c\nGoal: g"), fun _ => false⟩
      ⟨false, 3, str "succinct", defaultSections, none⟩ (str "a.ts") (str "// TODO: a") [] :=
  pipeline_second_pass_noop ⟨none, fun _ => some (str "Context: c\nGoal: g"), fun _ => false⟩
    ⟨false, 3, str "succinct", defaultSections, none⟩ (str "a.ts") (str "// TODO: a") [] []
    (by decide)

theorem findSinglesAux_mem (l : List Str) : ∀ i m, m ∈ findSinglesAux l i →
    i ≤ m.start ∧ m.start = m.«end» ∧ m.start - i < l.length ∧
    m.raw = l.getD (m.start - i) [] := by
  induction l with
  | nil => intro i m hm; simp [findSinglesAux] at hm
  | cons ln rest ih =>
    intro i m hm
    simp only [findSinglesAux] at hm
    cases hmk : singleMarker ln with
    | some mk =>
      rw [hmk] at hm
      rcases List.mem_cons.mp hm with h1 | h2
      · subst h1
        simp
      · obtain ⟨ha, hb, hc, hd⟩ := ih (i + 1) m h2
        refine ⟨by omega, hb, by simp; omega, ?_⟩
        have hs : m.start - i = (m.start - (i + 1)) + 1 := by omega
        rw [hs, List.getD_cons_succ]
        exact hd
    | none =>
      rw [hmk] at hm
      obtain ⟨ha, hb, hc, hd⟩ := ih (i + 1) m hm
      refine ⟨by omega, hb, by simp; omega, ?_⟩
      have hs : m.start - i = (m.start - (i + 1)) + 1 := by omega
      rw [hs, List.getD_cons_succ]
      exact hd

theorem findSinglesAux_pairwise (l : List Str) : ∀ i,
    List.Pairwise (fun a b => a.start < b.start) (findSinglesAux l i) := by
  induction l with
  | nil => intro i; simp [findSinglesAux]
  | cons ln rest ih =>
    intro i
    simp only [findSinglesAux]
    cases hmk : singleMarker ln with
    | some mk =>
      refine List.Pairwise.cons ?_ (ih (i + 1))
      intro b hb
      have := (findSinglesAux_mem rest (i + 1) b hb).1
      simp
      omega
    | none => exact ih (i + 1)

theorem findBlocksGo_mem (lines : List Str) : ∀ fuel i m, m ∈ findBlocksGo lines fuel i →
    i ≤ m.start ∧ m.start ≤ m.«end» ∧
    m.raw = joinLines ((lines.drop m.start).take (m.«end» + 1 - m.start)) := by
  intro fuel
  induction fuel with
  | zero => intro i m hm; simp [findBlocksGo] at hm
  | succ f ih =>
    intro i m hm
    simp only [findBlocksGo] at hm
    split at hm
    · split at hm
      · rcases List.mem_cons.mp hm with h1 | h2
        · subst h1
          have hge := blockEndFrom_ge lines i
          refine ⟨Nat.le_refl i, ?_, rfl⟩
          simp only []
          omega
        · obtain ⟨ha, hb, hc⟩ := ih (blockEndFrom lines i + 1) m h2
          have hge := blockEndFrom_ge lines i
          exact ⟨by omega, hb, hc⟩
      · obtain ⟨ha, hb, hc⟩ := ih (i + 1) m hm
        exact ⟨by omega, hb, hc⟩
    · simp at hm

theorem findBlocksGo_pairwise (lines : List Str) : ∀ fuel i,
    List.Pairwise (fun a b => a.«end» < b.start) (findBlocksGo lines fuel i) := by
  intro fuel
  induction fuel with
  | zero => intro i; simp [findBlocksGo]
  | succ f ih =>
    intro i
    simp only [findBlocksGo]
    split
    · split
      · refine List.Pairwise.cons ?_ (ih (blockEndFrom lines i + 1))
        intro b hb
        have h1 := (findBlocksGo_mem lines f (blockEndFrom lines i + 1) b hb).1
        simp only []
        omega
      · exact ih (i + 1)
    · simp

/-- C4 amended: `detectTodos` returns the filtered single-line matches
followed by the filtered block matches — two independently ordered scans
concatenated, not merged.  Within the single-line part the starts are
strictly increasing and each match spans one line; within the block part
the matches are strictly increasing and pairwise disjoint.  (Across the
two parts the list need not be globally sorted, and a single-line match
may overlap a block match — see the counterexample.) -/
theorem detectTodos_order_structure (content : Str) :
    detectTodos content =
      (findSinglesAux (splitLines content) 0).filter (fun t => !isStructured t.raw) ++
      (findBlocksAux (splitLines content) 0).filter (fun t => !isStructured t.raw) ∧
    List.Pairwise (fun a b => a.start < b.start)
      ((findSinglesAux (splitLines content) 0).filter (fun t => !isStructured t.raw)) ∧
    (∀ m ∈ (findSinglesAux (splitLines content) 0).filter (fun t => !isStructured t.raw),
      m.start = m.«end») ∧
    List.Pairwise (fun a b => a.«end» < b.start)
      ((findBlocksAux (splitLines content) 0).filter (fun t => !isStructured t.raw)) ∧
    (∀ m ∈ (findBlocksAux (splitLines content) 0).filter (fun t => !isStructured t.raw),
      m.start ≤ m.«end») := by
  refine ⟨?_, ?_, ?_, ?_, ?_⟩
  · simp [detectTodos, List.filter_append]
  · exact List.Pairwise.filter _ (findSinglesAux_pairwise (splitLines content) 0)
  · intro m hm
    exact (findSinglesAux_mem (splitLines content) 0 m (List.mem_of_mem_filter hm)).2.1
  · exact List.Pairwise.filter _ (findBlocksGo_pairwise (splitLines content) _ 0)
  · intro m hm
    exact (findBlocksGo_mem (splitLines content) _ 0 m (List.mem_of_mem_filter hm)).2.1

/-- Counterexample for C4: a block on line 0 followed by a line comment
on line 1 is returned as `[start 1, start 0]` — not sorted by ascending
start line; and a line that contains both a `//` TODO and a `/* TODO */`
yields two overlapping matches covering the same line. -/
theorem detectTodos_unordered_counterexample :
    (detectTodos (str "/* TODO: a */\n// TODO: b")).map TodoMatch.start = [1, 0] ∧
    ¬ List.Pairwise (fun a b : TodoMatch => a.start ≤ b.start)
        (detectTodos (str "/* TODO: a */\n// TODO: b")) ∧
    (detectTodos (str "// TODO: /* TODO: x */")).map (fun m => (m.start, m.«end»)) =
      [(0, 0), (0, 0)] := by
  refine ⟨by decide, ?_, by decide⟩
  intro h
  rw [show detectTodos (str "/* TODO: a */\n// TODO: b") =
    [⟨1, 1, str "// TODO: b", Style.line, str "//"⟩,
     ⟨0, 0, str "/* TODO: a */", Style.block, str "/*"⟩] from by decide] at h
  rcases List.pairwise_cons.mp h with ⟨h1, _⟩
  have := h1 _ (List.mem_cons_self _ _)
  simp at this

/-- Witness for C4 (amended): the hypothesis-bearing clauses evaluated on
a concrete file with one line match and one block match. -/
theorem detectTodos_order_structure_witness :
    (⟨0, 0, str "// TODO: a", Style.line, str "//"⟩ : TodoMatch).start =
      (⟨0, 0, str "// TODO: a", Style.line, str "//"⟩ : TodoMatch).«end» ∧
    (⟨1, 2, str "/* TODO: b\n*/", Style.block, str "/*"⟩ : TodoMatch).start ≤
      (⟨1, 2, str "/* TODO: b\n*/", Style.block, str "/*"⟩ : TodoMatch).«end» :=
  ⟨(detectTodos_order_structure (str "// TODO: a\n/* TODO: b\n*/")).2.2.1
      ⟨0, 0, str "// TODO: a", Style.line, str "//"⟩ (by decide),
   (detectTodos_order_structure (str "// TODO: a\n/* TODO: b\n*/")).2.2.2.2
      ⟨1, 2, str "/* TODO: b\n*/", Style.block, str "/*"⟩ (by decide)⟩

/-- C9 amended: for every match returned by `detectTodos`, `raw` equals
the full original lines spanning `[start, end]` joined with newlines —
including, for a single-line match, any non-comment source text that
precedes the marker on that line (see the counterexample). -/
theorem detectTodos_raw_spans_lines (content : Str) :
    ∀ m ∈ detectTodos content,
      m.raw = joinLines (((splitLines content).drop m.start).take (m.«end» + 1 - m.start)) := by
  intro m hm
  have hm2 : m ∈ findSinglesAux (splitLines content) 0 ∨
      m ∈ findBlocksAux (splitLines content) 0 := by
    have := (List.mem_filter.mp hm).1
    simpa using List.mem_append.mp this
  rcases hm2 with h | h
  · obtain ⟨ha, hb, hc, hd⟩ := findSinglesAux_mem (splitLines content) 0 m h
    simp only [Nat.sub_zero] at hc hd
    have hdrop : (splitLines content).drop m.start =
        (splitLines content).getD m.start [] :: (splitLines content).drop (m.start + 1) := by
      rw [List.getD_eq_getElem _ _ hc]
      exact List.drop_eq_getElem_cons hc
    rw [← hb]
    have h1 : m.start + 1 - m.start = 1 := by omega
    rw [h1, hdrop]
    simp [joinLines, hd]
  · exact (findBlocksGo_mem (splitLines content) _ 0 m h).2.2

/-- Counterexample for C9: for `"const a = 1 // TODO: x"` the match's
`rawText` is the whole line, not the comment beginning at its marker. -/
theorem detectTodos_raw_counterexample :
    (detectTodos (str "const a = 1 // TODO: x")).map TodoMatch.raw =
      [str "const a = 1 // TODO: x"] ∧
    (detectTodos (str "const a = 1 // TODO: x")).map TodoMatch.raw ≠
      [str "// TODO: x"] := by
  constructor <;> decide

/-- Witness for C9 (amended): the span equation evaluated on a concrete
two-line block match. -/
theorem detectTodos_raw_spans_lines_witness :
    (⟨0, 1, str "/* TODO: b\nrest */", Style.block, str "/*"⟩ : TodoMatch).raw =
      joinLines (((splitLines (str "/* TODO: b\nrest */\ncode")).drop 0).take 2) :=
  detectTodos_raw_spans_lines (str "/* TODO: b\nrest */\ncode")
    ⟨0, 1, str "/* TODO: b\nrest */", Style.block, str "/*"⟩ (by decide)
